import Mathlib

/-!
Verification of the multi-agent orchestration engine (LangGraph delegator,
Chart / RAG worker nodes, aggregator, and the RAG formatting pipeline).

The TypeScript sources are shallowly embedded:
* external collaborators (routing LLM, chart generator, embeddings, the
  tenant-scoped Weaviate search, synthesis LLM) become explicit oracle
  parameters returning `Except Unit`-typed results (a rejected promise is
  `.error ()`);
* the JavaScript regular expressions used by the keyword fallback router are
  embedded via a small backtracking matcher with JS `exec` semantics
  (leftmost match position, ordered alternation, greedy quantifiers);
* JS numbers are modelled as exact rationals extended with NaN and the two
  infinities; this is exact for the operations on results representable
  without rounding (in particular small integers and division by zero);
* the LangGraph state channels are a record, node results are partial
  updates; `allData` uses the concat reducer, every other channel is
  last-value-wins, exactly as in the `Annotation.Root` declaration.
-/

namespace MA

/-! ## A tiny regex engine with JavaScript `exec` semantics

Only the constructs appearing in the source regexes are supported:
character classes, literals, ordered alternation, concatenation, greedy
`*` / `+` over a character class, and capture groups.  `mtch` returns all
matches at the current position in JS backtracking priority order (first
element = what JS would pick); `searchAux` scans positions left to right. -/

/-- Capture list of a match: group index paired with the captured text. -/
abbrev Caps := List (Nat × String)

/-- Regular-expression syntax restricted to what the source uses. -/
inductive RE where
  | eps : RE
  | cls : (Char → Bool) → RE
  | cat : RE → RE → RE
  | alt : RE → RE → RE
  | starCls : (Char → Bool) → RE
  | group : Nat → RE → RE

/-- All suffixes reachable by a greedy `p*`, longest consumption first. -/
def starSplits (p : Char → Bool) : List Char → List (List Char)
  | [] => [[]]
  | c :: rest => if p c then starSplits p rest ++ [c :: rest] else [c :: rest]

/-- Concatenate the images of `f`; used to enumerate backtracking branches. -/
def concatMap (f : α → List β) : List α → List β
  | [] => []
  | a :: as => f a ++ concatMap f as

/-- All matches of `r` at the start of the input, in JS priority order.
Each result is the remaining suffix and the captures collected. -/
def mtch : RE → List Char → List (List Char × Caps)
  | .eps, s => [(s, [])]
  | .cls _, [] => []
  | .cls p, c :: rest => if p c then [(rest, [])] else []
  | .cat a b, s =>
    concatMap (fun r1 => (mtch b r1.1).map (fun r2 => (r2.1, r1.2 ++ r2.2))) (mtch a s)
  | .alt a b, s => mtch a s ++ mtch b s
  | .starCls p, s => (starSplits p s).map (fun rest => (rest, ([] : Caps)))
  | .group n r, s =>
    (mtch r s).map (fun r1 =>
      (r1.1, (n, String.mk (s.take (s.length - r1.1.length))) :: r1.2))

/-- Scan match positions left to right, as JS `String.prototype.match` with a
non-global regex does; returns the full match text (`match[0]`) and captures. -/
def searchAux (r : RE) : List Char → Option (String × Caps)
  | [] =>
    match mtch r [] with
    | rc :: _ => some ("", rc.2)
    | [] => none
  | c :: rest =>
    match mtch r (c :: rest) with
    | rc :: _ =>
      some (String.mk ((c :: rest).take ((c :: rest).length - rc.1.length)), rc.2)
    | [] => searchAux r rest

/-- `query.match(re)`: leftmost match with captures, `none` when no match. -/
def reMatch (r : RE) (s : String) : Option (String × Caps) := searchAux r s.data

/-- `re.test(query)`: whether a match exists anywhere in the string. -/
def reTest (r : RE) (s : String) : Bool := (reMatch r s).isSome

/-- Literal string regex. -/
def lit (s : String) : RE :=
  s.data.foldr (fun c r => RE.cat (RE.cls (fun d => d == c)) r) RE.eps

/-- Ordered alternation of a list of alternatives (left to right, as JS `|`). -/
def alts : List RE → RE
  | [] => RE.eps
  | [r] => r
  | r :: rs => RE.alt r (alts rs)

/-- JS `\s` restricted to the ASCII whitespace the queries can contain. -/
def isJsWs (c : Char) : Bool :=
  c == ' ' || c == '\t' || c == '\n' || c == '\r' || c == '\x0b' || c == '\x0c'

/-- JS `.` without the `s` flag: any char except line terminators. -/
def isDotChar (c : Char) : Bool :=
  !(c == '\n' || c == '\r' || c.toNat == 0x2028 || c.toNat == 0x2029)

/-- `\s+` -/
def wsPlus : RE := RE.cat (RE.cls isJsWs) (RE.starCls isJsWs)

/-- `\s*` -/
def wsStar : RE := RE.starCls isJsWs

/-- The arithmetic operator class `[\+\-\*\/]`. -/
def isOpChar (c : Char) : Bool := c == '+' || c == '-' || c == '*' || c == '/'

/-- `/chart|graph|visuali[sz]e|plot|bar|line|pie|doughnut|show\s+me\s+a\s+(chart|graph)/` -/
def chartKeywords : RE :=
  alts [lit "chart", lit "graph",
    RE.cat (lit "visuali") (RE.cat (RE.cls (fun c => c == 's' || c == 'z')) (lit "e")),
    lit "plot", lit "bar", lit "line", lit "pie", lit "doughnut",
    RE.cat (lit "show") (RE.cat wsPlus (RE.cat (lit "me") (RE.cat wsPlus
      (RE.cat (lit "a") (RE.cat wsPlus
        (RE.group 1 (RE.alt (lit "chart") (lit "graph"))))))))]

/-- `/(\d+)\s*[\+\-\*\/]\s*(\d+)/` -/
def mathPattern : RE :=
  RE.cat (RE.group 1 (RE.cat (RE.cls Char.isDigit) (RE.starCls Char.isDigit)))
    (RE.cat wsStar
      (RE.cat (RE.cls isOpChar)
        (RE.cat wsStar
          (RE.group 2 (RE.cat (RE.cls Char.isDigit) (RE.starCls Char.isDigit))))))

/-- `/(what\s+(is|are|was|were)|how\s+(do|does|did)|tell\s+me\s+about)\s+.*(system|requirement|document|policy|authentication|safety|concern|driver|cost)/` -/
def ragKeywords : RE :=
  RE.cat
    (RE.group 1 (alts [
      RE.cat (lit "what") (RE.cat wsPlus
        (RE.group 2 (alts [lit "is", lit "are", lit "was", lit "were"]))),
      RE.cat (lit "how") (RE.cat wsPlus
        (RE.group 3 (alts [lit "do", lit "does", lit "did"]))),
      RE.cat (lit "tell") (RE.cat wsPlus (RE.cat (lit "me") (RE.cat wsPlus (lit "about"))))]))
    (RE.cat wsPlus (RE.cat (RE.starCls isDotChar)
      (RE.group 4 (alts [lit "system", lit "requirement", lit "document", lit "policy",
        lit "authentication", lit "safety", lit "concern", lit "driver", lit "cost"]))))

/-- `/mentioned\s+in|from\s+the\s+document|in\s+the\s+documentation/` -/
def documentKeywords : RE :=
  alts [
    RE.cat (lit "mentioned") (RE.cat wsPlus (lit "in")),
    RE.cat (lit "from") (RE.cat wsPlus (RE.cat (lit "the") (RE.cat wsPlus (lit "document")))),
    RE.cat (lit "in") (RE.cat wsPlus (RE.cat (lit "the") (RE.cat wsPlus (lit "documentation"))))]

/-- `/and\s+explain|explain\s+the/` -/
def explainPattern : RE :=
  RE.alt (RE.cat (lit "and") (RE.cat wsPlus (lit "explain")))
    (RE.cat (lit "explain") (RE.cat wsPlus (lit "the")))

/-! ## JS numbers and their printing

The operands of the math fallback come from `parseFloat` applied to `\d+`
matches.  We model JS numbers as exact fractions extended with NaN and
signed infinity.  This agrees with the program's IEEE-754 binary64
arithmetic exactly on the rounding-free domain — integer values of
magnitude below 2^53 and the division-by-zero cases — and stays exact
where a double would round (operands above 2^53, non-representable
products, non-terminating quotients), so exact-value claims are settled on
the rounding-free domain only.  Fractions are kept unreduced (denominator
positive) so that every operation is plain `Int`/`Nat` arithmetic;
`Frac.toRat` gives their value in `ℚ`. -/

/-- An exact, not necessarily reduced fraction.  Every constructor below
keeps `den` positive. -/
structure Frac where
  num : Int
  den : Nat
deriving DecidableEq

/-- The rational value of a fraction. -/
def Frac.toRat (a : Frac) : Rat := (a.num : Rat) / (a.den : Rat)

/-- Exact fraction addition. -/
def Frac.add (a b : Frac) : Frac := ⟨a.num * b.den + b.num * a.den, a.den * b.den⟩

/-- Exact fraction subtraction. -/
def Frac.sub (a b : Frac) : Frac := ⟨a.num * b.den - b.num * a.den, a.den * b.den⟩

/-- Exact fraction multiplication. -/
def Frac.mul (a b : Frac) : Frac := ⟨a.num * b.num, a.den * b.den⟩

/-- Exact fraction division (caller guarantees `b.num ≠ 0`); the sign moves
to the numerator so the denominator stays positive. -/
def Frac.div (a b : Frac) : Frac :=
  if 0 ≤ b.num then ⟨a.num * b.den, a.den * b.num.natAbs⟩
  else ⟨-(a.num * b.den), a.den * b.num.natAbs⟩

/-- Negation. -/
def Frac.neg (a : Frac) : Frac := ⟨-a.num, a.den⟩

/-- A JS number: NaN, ±Infinity, or a finite value (modelled exactly). -/
inductive JSNum where
  | nan : JSNum
  | inf : Bool → JSNum
  | fin : Frac → JSNum
deriving DecidableEq

/-- `parseFloat` on a string of decimal digits (what `(\d+)` captures),
kept exact: JS rounds to the nearest double above 2^53 (and overflows to
Infinity for very long digit strings), so agreement is exact below 2^53. -/
def parseFloatDigits (s : String) : Frac :=
  ⟨((s.data.foldl (fun acc c => acc * 10 + (c.toNat - 48)) 0 : Nat) : Int), 1⟩

/-- Look up a capture group by index (JS `match[n]`). -/
def capGet (caps : Caps) (n : Nat) : String :=
  match caps.find? (fun e => e.1 == n) with
  | some e => e.2
  | none => ""

/-- The first arithmetic-operator character of a string:
`mathMatch[0].match(/[\+\-\*\/]/)?.[0]`. -/
def firstOpChar (s : String) : Option Char := s.data.find? isOpChar

/-- The `switch (operator)` of the math fallback, with `let result = 0` as the
default.  Division by zero follows IEEE-754: `x / 0` is ±Infinity for
`x ≠ 0` and NaN for `0 / 0` (a fraction with positive denominator is zero or
positive exactly when its numerator is).  The finite results are exact
fractions, which matches the source's double arithmetic only where the
double result is exact. -/
def jsApplyOp (op : Option Char) (a b : Frac) : JSNum :=
  match op with
  | some '+' => JSNum.fin (Frac.add a b)
  | some '-' => JSNum.fin (Frac.sub a b)
  | some '*' => JSNum.fin (Frac.mul a b)
  | some '/' =>
    if b.num = 0 then (if a.num = 0 then JSNum.nan else JSNum.inf (0 < a.num))
    else JSNum.fin (Frac.div a b)
  | _ => JSNum.fin ⟨0, 1⟩

/-- Decimal digits of `num/den` (`num < den`), long division, at most `fuel`
digits. -/
def fracDigitsAux (num den : Nat) : Nat → List Char
  | 0 => []
  | fuel + 1 =>
    if num = 0 then []
    else
      let num10 := num * 10
      Char.ofNat (num10 / den + 48) :: fracDigitsAux (num10 % den) den fuel

/-- Decimal rendering of a nonnegative fraction: integers print their
digits, terminating fractions print exactly — matching JS for every double
whose shortest round-trip form is its exact decimal value — while
non-terminating expansions truncate at 20 digits, where JS would instead
print the shortest round-trip form of the rounded double. -/
def ratToJsStringNN (q : Frac) : String :=
  let ip := q.num.toNat / q.den
  let rem := q.num.toNat % q.den
  if rem = 0 then toString ip
  else toString ip ++ "." ++ String.mk (fracDigitsAux rem q.den 20)

/-- JS number-to-string for the template `` `The answer is ${result}.` ``. -/
def jsNumToString : JSNum → String
  | JSNum.nan => "NaN"
  | JSNum.inf true => "Infinity"
  | JSNum.inf false => "-Infinity"
  | JSNum.fin q =>
    if q.num < 0 then "-" ++ ratToJsStringNN (Frac.neg q) else ratToJsStringNN q

/-- `toLowerCase()` (ASCII-accurate, which covers the keyword regexes). -/
def jsToLower (s : String) : String := String.mk (s.data.map Char.toLower)

/-! ## The keyword fallback router (catch branch of `delegatingNode`) -/

/-- The routing decision produced by the keyword fallback. -/
structure FallbackDecision where
  needsChart : Bool
  needsRAG : Bool
  directAnswer : String
deriving DecidableEq

/-- The deterministic keyword fallback of `delegatingNode`, operating on the
already-lowercased query exactly as the source does:
`needsChart` from the chart-keyword regex; `needsRAG` from the RAG /
document / explain regexes, vetoed by an arithmetic match; a direct answer
`"The answer is {result}."` when the math pattern matched and neither
worker is needed. -/
def fallbackRoute (query : String) : FallbackDecision :=
  let needsChart := reTest chartKeywords query
  let needsRAG :=
    (reTest ragKeywords query || reTest documentKeywords query ||
      reTest explainPattern query) && !(reTest mathPattern query)
  let directAnswer :=
    match reMatch mathPattern query with
    | some mc =>
      if !needsChart && !needsRAG then
        let num1 := parseFloatDigits (capGet mc.2 1)
        let num2 := parseFloatDigits (capGet mc.2 2)
        "The answer is " ++ jsNumToString (jsApplyOp (firstOpChar mc.1) num1 num2) ++ "."
      else ""
    | none => ""
  ⟨needsChart, needsRAG, directAnswer⟩

/-! ## RAG data model and the reference/answer formatting of `queryRAG` -/

/-- A retrieval hit as returned by the search (`question` and `_additional`
are carried by the source objects but never read by the formatting). -/
structure Hit where
  fileId : String
  pageNumber : List String
  answer : String
deriving DecidableEq

/-- A deduplicated citation: `{ fileId, pages }`. -/
structure Reference where
  fileId : String
  pages : List String
deriving DecidableEq

/-- `RAGAgentOutput`. -/
structure RAGAgentOutput where
  answer : String
  references : List Reference
  rawData : List Hit
deriving DecidableEq

/-- `RAGAgentInput` (`topK` defaults to 3 at the destructuring). -/
structure RAGAgentInput where
  query : String
  tenant : Option String
  topK : Option Nat

/-- JS `Array.prototype.join(", ")`. -/
def pagesJoin (ps : List String) : String := String.intercalate ", " ps

/-- Whitespace trimmed by JS `String.prototype.trim` (ASCII part). -/
def isJsSpace (c : Char) : Bool :=
  c == ' ' || c == '\t' || c == '\n' || c == '\r' || c == '\x0b' || c == '\x0c'

/-- JS `trim()`: strip leading and trailing whitespace. -/
def jsTrim (s : String) : String :=
  String.mk (((s.data.dropWhile isJsSpace).reverse.dropWhile isJsSpace).reverse)

/-- Insertion-order map/set insertion: append when absent (`Set.prototype.add`,
and the key-list behaviour of `Map.prototype.set` for a fresh key). -/
def setAdd (s : List String) (p : String) : List String :=
  if p ∈ s then s else s ++ [p]

/-- Add each element of `l` to the insertion-ordered set `s`. -/
def setAddAll (s : List String) (l : List String) : List String := l.foldl setAdd s

/-- First-seen deduplication of a list (a JS `Set` built by iteration). -/
def dedupFS (l : List String) : List String := setAddAll [] l

/-- Lookup in an insertion-ordered association list (JS `Map.prototype.get`). -/
def assocLookup (m : List (String × α)) (k : String) : Option α :=
  match m.find? (fun e => e.1 == k) with
  | some e => some e.2
  | none => none

/-- JS `Map.prototype.set`: overwrite in place when present, append when not. -/
def assocUpdate (m : List (String × α)) (k : String) (v : α) : List (String × α) :=
  match m with
  | [] => [(k, v)]
  | e :: rest => if e.1 == k then (k, v) :: rest else e :: assocUpdate rest k v

/-- Lexicographic comparison of character lists by code point (the JS
default sort order on the BMP strings occurring here). -/
def lexLeChars : List Char → List Char → Bool
  | [], _ => true
  | _ :: _, [] => false
  | a :: as, b :: bs =>
    if a.toNat < b.toNat then true
    else if b.toNat < a.toNat then false
    else lexLeChars as bs

/-- JS default string comparison (`a <= b` in sort order). -/
def strLe (a b : String) : Bool := lexLeChars a.data b.data

/-- Insert into an ascending list. -/
def insertSorted (x : String) : List String → List String
  | [] => [x]
  | y :: ys => if strLe x y then x :: y :: ys else y :: insertSorted x ys

/-- JS default `Array.prototype.sort` on strings: lexicographic by code unit.
Realised by insertion sort; on the duplicate-free page sets this is the
unique ascending ordering. -/
def sortLex (l : List String) : List String := l.foldr insertSorted []

/-- The line appended to `combinedAnswer` for one hit:
`` `${fileIdx}- Page ${pages.join(", ")}: ${obj.answer}\n\n` ``. -/
def chunkStr (idx : Nat) (h : Hit) : String :=
  toString idx ++ "- Page " ++ pagesJoin h.pageNumber ++ ": " ++ h.answer ++ "\n\n"

/-- The `referencesMap` evolution for one hit: ensure the key exists
(`referencesMap.set(fileId, new Set())`), then add every page label
(`pages.forEach(p => referencesMap.get(fileId)?.add(p))`). -/
def addHitPages (m : List (String × List String)) (h : Hit) :
    List (String × List String) :=
  let m0 := if (assocLookup m h.fileId).isSome then m else assocUpdate m h.fileId []
  h.pageNumber.foldl
    (fun m' p => assocUpdate m' h.fileId (setAdd ((assocLookup m' h.fileId).getD []) p)) m0

/-- The accumulator of the `objects.forEach` loop in `queryRAG`. -/
structure RefAcc where
  referencesMap : List (String × List String)
  fileIdToIndex : List (String × Nat)
  fileCounter : Nat
  combinedAnswer : String

/-- One iteration of the `objects.forEach` loop: assign a fresh 1-based label
to a first-seen `fileId`, accumulate its pages, and append the numbered
passage to the combined answer. -/
def processHit (acc : RefAcc) (h : Hit) : RefAcc :=
  let seenIdx := (assocLookup acc.fileIdToIndex h.fileId).isSome
  let fti := if seenIdx then acc.fileIdToIndex
             else assocUpdate acc.fileIdToIndex h.fileId acc.fileCounter
  let counter := if seenIdx then acc.fileCounter else acc.fileCounter + 1
  let fileIdx := (assocLookup fti h.fileId).getD 0
  { referencesMap := addHitPages acc.referencesMap h
    fileIdToIndex := fti
    fileCounter := counter
    combinedAnswer := acc.combinedAnswer ++ chunkStr fileIdx h }

/-- The formatting block of `queryRAG` (lines 75–106): run the loop over the
hits, build the references from the per-file page sets (each sorted), trim
the combined answer. -/
def formatHits (objects : List Hit) : RAGAgentOutput :=
  let acc := objects.foldl processHit ⟨[], [], 1, ""⟩
  { answer := jsTrim acc.combinedAnswer
    references := acc.referencesMap.map (fun e => ⟨e.1, sortLex e.2⟩)
    rawData := objects }

/-- External collaborators of `queryRAG`, tenant- and limit-scoped:
`embed` is `embeddings.embedQuery`, `primarySearch` the `nearVector` GraphQL
query, `fallbackFetch` the `client.data.getter` listing.  `Option` inside the
payload models the `|| []` null guards of the source. -/
structure RagOracles where
  embed : String → Except Unit Unit
  primarySearch : String → Nat → Except Unit (Option (List Hit))
  fallbackFetch : String → Nat → Except Unit (Option (List Hit))

/-- JS falsiness of `string | undefined` (`!tenant`). -/
def jsFalsyStr : Option String → Bool
  | none => true
  | some s => s == ""

/-- `queryRAG`: tenant guard, embedding, primary search with `fetchObjects`
fallback, zero-hit answer, formatting; the outer `try/catch` turns any
failure into the fixed error output, so the function is total. -/
def queryRAG (o : RagOracles) (input : RAGAgentInput) : RAGAgentOutput :=
  let topK := input.topK.getD 3
  let run : Except Unit (List Hit) :=
    if jsFalsyStr input.tenant then Except.error ()
    else
      match o.embed input.query with
      | Except.error e => Except.error e
      | Except.ok () =>
        match o.primarySearch (input.tenant.getD "") topK with
        | Except.ok r => Except.ok (r.getD [])
        | Except.error _ =>
          match o.fallbackFetch (input.tenant.getD "") topK with
          | Except.ok r => Except.ok (r.getD [])
          | Except.error e => Except.error e
  match run with
  | Except.error _ =>
    { answer := "An error occurred while retrieving information."
      references := [], rawData := [] }
  | Except.ok objects =>
    if objects.isEmpty then
      { answer := "I couldn\x27t find any relevant information in the documents."
        references := [], rawData := [] }
    else formatHits objects

/-! ## The LangGraph orchestrator -/

/-- The fixed chart-kind enumeration of `ChartJSTool`. -/
inductive ChartType where
  | bar : ChartType
  | li : ChartType
  | pie : ChartType
  | doughnut : ChartType
deriving DecidableEq

/-- The `"line"` chart kind (named `li` to keep Lean identifiers simple). -/
def ChartType.lineKind : ChartType := ChartType.li

/-- A chart worker result; the `chartConfig` object is opaque to the core and
not modelled. -/
structure ChartOutput where
  type : ChartType
  description : String
deriving DecidableEq

/-- A heterogeneous `allData` entry: a chart result or a reference list. -/
inductive Payload where
  | chart : ChartOutput → Payload
  | refs : List Reference → Payload
deriving DecidableEq

/-- The graph state channels (`AgentStateAnnotation`); `messages` is never
read by any node and is omitted. -/
structure GraphState where
  userQuery : String
  needsChart : Bool
  needsRAG : Bool
  tenant : Option String
  chartResult : Option ChartOutput
  ragResult : Option RAGAgentOutput
  finalAnswer : String
  allData : List Payload
deriving DecidableEq

/-- A partial state update returned by a node. -/
structure Update where
  needsChart : Option Bool
  needsRAG : Option Bool
  chartResult : Option ChartOutput
  ragResult : Option RAGAgentOutput
  finalAnswer : Option String
  allData : List Payload
deriving DecidableEq

/-- The empty update (`return {}`). -/
def emptyUpdate : Update := ⟨none, none, none, none, none, []⟩

/-- Channel merge: `allData` concatenates (its reducer), every other channel
is overwritten when the update carries a value. -/
def applyUpdate (s : GraphState) (u : Update) : GraphState :=
  { userQuery := s.userQuery
    needsChart := u.needsChart.getD s.needsChart
    needsRAG := u.needsRAG.getD s.needsRAG
    tenant := s.tenant
    chartResult := match u.chartResult with | some c => some c | none => s.chartResult
    ragResult := match u.ragResult with | some r => some r | none => s.ragResult
    finalAnswer := u.finalAnswer.getD s.finalAnswer
    allData := s.allData ++ u.allData }

/-- A validated LLM routing response (the source checks that both booleans
are boolean-typed; any other shape falls through to the keyword fallback). -/
structure LLMDecision where
  needsChart : Bool
  needsRAG : Bool
  directAnswer : Option String
deriving DecidableEq

/-- `delegatingNode`: a successfully parsed and validated LLM response wins
(`finalAnswer := decision.directAnswer || ""`); otherwise the keyword
fallback runs on the lowercased query. -/
def delegatingNode (resp : Option LLMDecision) (s : GraphState) : Update :=
  match resp with
  | some d =>
    { emptyUpdate with
        needsChart := some d.needsChart
        needsRAG := some d.needsRAG
        finalAnswer := some (d.directAnswer.getD "") }
  | none =>
    let f := fallbackRoute (jsToLower s.userQuery)
    { emptyUpdate with
        needsChart := some f.needsChart
        needsRAG := some f.needsRAG
        finalAnswer := some f.directAnswer }

/-- The final answer the router writes, as a function of the oracle response
and the query. -/
def routedAnswer (resp : Option LLMDecision) (q : String) : String :=
  match resp with
  | some d => d.directAnswer.getD ""
  | none => (fallbackRoute (jsToLower q)).directAnswer

/-- The chart-kind classification of `chartToolNode`: scan the lowercased
query for `line` / `pie` / `doughnut`, defaulting to `bar`. -/
def chartTypeOf (uq : String) : ChartType :=
  let q := jsToLower uq
  if reTest (lit "line") q then ChartType.li
  else if reTest (lit "pie") q then ChartType.pie
  else if reTest (lit "doughnut") q then ChartType.doughnut
  else ChartType.bar

/-- `chartToolNode`: a no-op unless `needsChart`; otherwise invoke the chart
generator.  The node has **no** try/catch, so a generator failure
propagates out of the node (`Except.error`). -/
def chartToolNode (chartGen : ChartType → String → Except Unit ChartOutput)
    (s : GraphState) : Except Unit Update :=
  if !s.needsChart then Except.ok emptyUpdate
  else
    match chartGen (chartTypeOf s.userQuery) s.userQuery with
    | Except.ok r =>
      Except.ok { emptyUpdate with chartResult := some r, allData := [Payload.chart r] }
    | Except.error e => Except.error e

/-- `ragAgentNode`: a no-op unless `needsRAG`; otherwise call the RAG agent
with `state.tenant || "company_a"`; its try/catch substitutes a fixed
error-result (note: that branch contributes nothing to `allData`). -/
def ragAgentNode (ragFn : RAGAgentInput → Except Unit RAGAgentOutput)
    (s : GraphState) : Update :=
  if !s.needsRAG then emptyUpdate
  else
    let tenant := match s.tenant with
      | none => "company_a"
      | some t => if t == "" then "company_a" else t
    match ragFn ⟨s.userQuery, some tenant, none⟩ with
    | Except.ok r =>
      { emptyUpdate with ragResult := some r, allData := [Payload.refs r.references] }
    | Except.error _ =>
      { emptyUpdate with
          ragResult := some
            { answer := "I encountered an error while searching for document information."
              references := [], rawData := [] } }

/-- The contextual prompt built by `aggregatorNode`. -/
def aggregatorPrompt (s : GraphState) : String :=
  let base := "You are a helpful assistant. Based on the following information, answer the user\x27s query: \"" ++ s.userQuery ++ "\"\n\n"
  let withRag := match s.ragResult with
    | some r => base ++ "Document Information:\n" ++ r.answer ++ "\n\n"
    | none => base
  match s.chartResult with
  | some c =>
    let kind := match c.type with
      | ChartType.bar => "bar"
      | ChartType.li => "line"
      | ChartType.pie => "pie"
      | ChartType.doughnut => "doughnut"
    withRag ++ "I have also generated a " ++ kind ++ " chart for \"" ++ c.description ++ "\".\n\n"
  | none => withRag

/-- `aggregatorNode`: skipped when a final answer already exists; otherwise
one synthesis call, with a fixed apology on failure (its try/catch). -/
def aggregatorNode (agg : String → Except Unit String) (s : GraphState) : Update :=
  if s.finalAnswer ≠ "" then emptyUpdate
  else
    match agg (aggregatorPrompt s) with
    | Except.ok resp => { emptyUpdate with finalAnswer := some resp }
    | Except.error _ =>
      { emptyUpdate with finalAnswer := some "I\x27m sorry, I encountered an error while synthesizing your answer. However, I have gathered the requested data." }

/-- All external collaborators of one orchestrator run. -/
structure Oracles where
  routing : Option LLMDecision
  chartGen : ChartType → String → Except Unit ChartOutput
  ragFn : RAGAgentInput → Except Unit RAGAgentOutput
  aggLLM : String → Except Unit String

/-- The compiled workflow: `START → delegator`, then the conditional edges
(`end` on a truthy `finalAnswer`; both workers when both flags; a single
worker otherwise; else straight to the aggregator), workers feeding the
aggregator, `aggregator → END`.  The two parallel workers write disjoint
channels; their updates are merged chart-first, matching the node insertion
order of the superstep.  A node that throws aborts the whole invocation
(`Except.error`), as a LangGraph node exception fails `graph.stream`. -/
def runGraph (o : Oracles) (s0 : GraphState) : Except Unit GraphState :=
  let s1 := applyUpdate s0 (delegatingNode o.routing s0)
  if s1.finalAnswer ≠ "" then Except.ok s1
  else if s1.needsChart && s1.needsRAG then
    match chartToolNode o.chartGen s1 with
    | Except.error e => Except.error e
    | Except.ok u1 =>
      let u2 := ragAgentNode o.ragFn s1
      let s2 := applyUpdate (applyUpdate s1 u1) u2
      Except.ok (applyUpdate s2 (aggregatorNode o.aggLLM s2))
  else if s1.needsChart then
    match chartToolNode o.chartGen s1 with
    | Except.error e => Except.error e
    | Except.ok u1 =>
      let s2 := applyUpdate s1 u1
      Except.ok (applyUpdate s2 (aggregatorNode o.aggLLM s2))
  else if s1.needsRAG then
    let s2 := applyUpdate s1 (ragAgentNode o.ragFn s1)
    Except.ok (applyUpdate s2 (aggregatorNode o.aggLLM s2))
  else
    Except.ok (applyUpdate s1 (aggregatorNode o.aggLLM s1))

/-- The graph's RAG node calls `queryRAG` directly; `queryRAG` itself never
rejects, so the composed node function always succeeds. -/
def queryRagFn (o : RagOracles) : RAGAgentInput → Except Unit RAGAgentOutput :=
  fun inp => Except.ok (queryRAG o inp)

/-! ## Specification-side definitions (for stating the claims) -/

/-- All page labels contributed for one `fileId`, in hit order. -/
def pagesOf (objects : List Hit) (fid : String) : List String :=
  concatMap (fun h => if h.fileId == fid then h.pageNumber else []) objects

/-- 0-based first-seen index of `x` in `l` (`l.length` when absent). -/
def idxOf0 : List String → String → Nat
  | [], _ => 0
  | y :: ys, x => if y == x then 0 else idxOf0 ys x + 1

/-- The numbered passages with labels taken from a fixed global label list
`g` (the spec's "assign each distinct source an increasing integer label
starting at 1 in first-seen order"). -/
def joinChunks (g : List String) : List Hit → String
  | [] => ""
  | h :: t => chunkStr (idxOf0 g h.fileId + 1) h ++ joinChunks g t

/-- The combined answer as the spec words it: labels assigned per distinct
`fileId` in first-seen order starting at 1, one numbered passage per hit in
retrieval order, each followed by a blank line. -/
def specAnswer (objects : List Hit) : String :=
  joinChunks (dedupFS (objects.map Hit.fileId)) objects

/-- Helper for stating the intermediate incremental labelling. -/
def answerChunks (seen : List String) : List Hit → String
  | [] => ""
  | h :: t =>
    let seen' := setAdd seen h.fileId
    chunkStr (idxOf0 seen' h.fileId + 1) h ++ answerChunks seen' t

/-- 1-based index map `fileIdToIndex` for a seen-list, first label `n`. -/
def mkIdxFrom (n : Nat) : List String → List (String × Nat)
  | [] => []
  | x :: xs => (x, n) :: mkIdxFrom (n + 1) xs

/-! ## Concrete fixtures used by the witnesses -/

/-- Three hits over two files, with one duplicated page label. -/
def demoHits : List Hit :=
  [⟨"tech_doc_001", ["3", "4"], "Answer A"⟩,
   ⟨"financial_report_q3", ["7"], "Answer B"⟩,
   ⟨"tech_doc_001", ["4", "2"], "Answer C"⟩]

/-- Collaborators that succeed, returning `demoHits` for tenant
`company_a` only. -/
def demoRagOracles : RagOracles :=
  ⟨fun _ => Except.ok (),
   fun t _ => if t == "company_a" then Except.ok (some demoHits) else Except.ok (some []),
   fun _ _ => Except.ok none⟩

/-- A retrieval request with tenant present. -/
def demoRagInput : RAGAgentInput :=
  ⟨"What are the system requirements for deployment?", some "company_a", none⟩

/-- Collaborators where the embedding call rejects. -/
def embedFailRagOracles : RagOracles :=
  ⟨fun _ => Except.error (), fun _ _ => Except.ok (some demoHits), fun _ _ => Except.ok none⟩

/-- Collaborators where both the primary search and the fallback reject. -/
def searchFailRagOracles : RagOracles :=
  ⟨fun _ => Except.ok (), fun _ _ => Except.error (), fun _ _ => Except.error ()⟩

/-- Collaborators whose primary search succeeds with zero hits. -/
def emptyRagOracles : RagOracles :=
  ⟨fun _ => Except.ok (), fun _ _ => Except.ok (some []), fun _ _ => Except.ok none⟩

/-- Collaborators whose primary search rejects and whose fallback listing
returns a null object list (`|| []`). -/
def fallbackEmptyRagOracles : RagOracles :=
  ⟨fun _ => Except.ok (), fun _ _ => Except.error (), fun _ _ => Except.ok none⟩

/-- A validated routing response carrying a direct answer and, adversarially,
both worker flags. -/
def directRouting : Option LLMDecision := some ⟨true, true, some "Paris"⟩

/-- A chart generator that succeeds. -/
def demoChartGen : ChartType → String → Except Unit ChartOutput :=
  fun t d => Except.ok ⟨t, d⟩

/-- A chart generator whose call rejects. -/
def failingChartGen : ChartType → String → Except Unit ChartOutput :=
  fun _ _ => Except.error ()

/-- A synthesis collaborator that succeeds. -/
def demoAgg : String → Except Unit String := fun _ => Except.ok "synthesized answer"

/-- A full oracle set with a direct-answer routing response and healthy
workers. -/
def demoOracleA : Oracles :=
  ⟨directRouting, demoChartGen, fun _ => Except.ok ⟨"", [], []⟩, demoAgg⟩

/-- The same routing response with every worker collaborator failing. -/
def demoOracleB : Oracles :=
  ⟨directRouting, failingChartGen, fun _ => Except.error (), fun _ => Except.error ()⟩

/-- The initial run state of `runQuery` for a direct-answer query. -/
def capitalState : GraphState :=
  ⟨"What is the capital of France?", false, false, some "company_a", none, none, "", []⟩

/-- Oracles for a run whose keyword fallback routes to both workers and whose
chart generator fails. -/
def chartFailOracles : Oracles :=
  ⟨none, failingChartGen, queryRagFn demoRagOracles, demoAgg⟩

/-- An initial state whose query triggers both the chart and the explain
keywords under the fallback router. -/
def bothFlagsState : GraphState :=
  ⟨"plot and explain it", false, false, some "company_b", none, none, "", []⟩

/-- A mid-run state with both worker flags off. -/
def idleState : GraphState :=
  ⟨"hello there", false, false, none, none, none, "", []⟩

/-- A mid-run state needing retrieval but carrying no tenant. -/
def noTenantState : GraphState :=
  ⟨"What are the system requirements for deployment?", false, true, none, none, none, "", []⟩

/-! ## The fraction operations compute the rational-number operations -/

theorem Frac.add_toRat (a b : Frac) (ha : a.den ≠ 0) (hb : b.den ≠ 0) :
    (Frac.add a b).toRat = a.toRat + b.toRat := by
  have ha' : ((a.den : Rat)) ≠ 0 := Nat.cast_ne_zero.mpr ha
  have hb' : ((b.den : Rat)) ≠ 0 := Nat.cast_ne_zero.mpr hb
  simp only [Frac.toRat, Frac.add]
  push_cast
  field_simp

theorem Frac.sub_toRat (a b : Frac) (ha : a.den ≠ 0) (hb : b.den ≠ 0) :
    (Frac.sub a b).toRat = a.toRat - b.toRat := by
  have ha' : ((a.den : Rat)) ≠ 0 := Nat.cast_ne_zero.mpr ha
  have hb' : ((b.den : Rat)) ≠ 0 := Nat.cast_ne_zero.mpr hb
  simp only [Frac.toRat, Frac.sub]
  push_cast
  field_simp
  ring

theorem Frac.mul_toRat (a b : Frac) (ha : a.den ≠ 0) (hb : b.den ≠ 0) :
    (Frac.mul a b).toRat = a.toRat * b.toRat := by
  have ha' : ((a.den : Rat)) ≠ 0 := Nat.cast_ne_zero.mpr ha
  have hb' : ((b.den : Rat)) ≠ 0 := Nat.cast_ne_zero.mpr hb
  simp only [Frac.toRat, Frac.mul]
  push_cast
  field_simp

theorem Frac.div_toRat (a b : Frac) (ha : a.den ≠ 0) (hb : b.den ≠ 0)
    (hbn : b.num ≠ 0) : (Frac.div a b).toRat = a.toRat / b.toRat := by
  have ha' : ((a.den : Rat)) ≠ 0 := Nat.cast_ne_zero.mpr ha
  have hb' : ((b.den : Rat)) ≠ 0 := Nat.cast_ne_zero.mpr hb
  have hbn' : ((b.num : Rat)) ≠ 0 := Int.cast_ne_zero.mpr hbn
  unfold Frac.div
  by_cases hs : 0 ≤ b.num
  · rw [if_pos hs]
    have habs : ((b.num.natAbs : Nat) : Rat) = (b.num : Rat) := by
      rw [Int.cast_natAbs, abs_of_nonneg hs]
    simp only [Frac.toRat]
    push_cast
    rw [habs]
    field_simp
  · rw [if_neg hs]
    have habs : ((b.num.natAbs : Nat) : Rat) = -(b.num : Rat) := by
      rw [Int.cast_natAbs, abs_of_neg (lt_of_not_ge hs), Int.cast_neg]
    simp only [Frac.toRat]
    push_cast
    rw [habs]
    field_simp

/-! ## Lemmas about the insertion-ordered set and association-list model -/

theorem mem_setAdd (s : List String) (x y : String) :
    y ∈ setAdd s x ↔ y ∈ s ∨ y = x := by
  unfold setAdd
  by_cases h : x ∈ s
  · simp only [if_pos h]
    constructor
    · exact Or.inl
    · rintro (hy | rfl) <;> [exact hy; exact h]
  · simp [if_neg h]

theorem setAdd_nodup (s : List String) (x : String) (h : s.Nodup) :
    (setAdd s x).Nodup := by
  unfold setAdd
  by_cases hx : x ∈ s
  · simpa [if_pos hx]
  · simp [if_neg hx, List.nodup_append, h, hx]

theorem setAddAll_cons (s : List String) (x : String) (l : List String) :
    setAddAll s (x :: l) = setAddAll (setAdd s x) l := rfl

theorem setAddAll_append (s a b : List String) :
    setAddAll s (a ++ b) = setAddAll (setAddAll s a) b := by
  unfold setAddAll
  exact List.foldl_append ..

theorem mem_setAddAll (l : List String) :
    ∀ s y, y ∈ setAddAll s l ↔ y ∈ s ∨ y ∈ l := by
  induction l with
  | nil => intro s y; simp [setAddAll]
  | cons x xs ih =>
    intro s y
    rw [setAddAll_cons, ih, mem_setAdd]
    constructor
    · rintro ((hy | rfl) | hy)
      · exact Or.inl hy
      · exact Or.inr (List.mem_cons_self ..)
      · exact Or.inr (List.mem_cons_of_mem _ hy)
    · rintro (hy | hy)
      · exact Or.inl (Or.inl hy)
      · rcases List.mem_cons.mp hy with rfl | hy
        · exact Or.inl (Or.inr rfl)
        · exact Or.inr hy

theorem setAddAll_nodup (l : List String) :
    ∀ s, s.Nodup → (setAddAll s l).Nodup := by
  induction l with
  | nil => intro s h; exact h
  | cons x xs ih => intro s h; rw [setAddAll_cons]; exact ih _ (setAdd_nodup s x h)

theorem dedupFS_nodup (l : List String) : (dedupFS l).Nodup :=
  setAddAll_nodup l [] List.nodup_nil

theorem mem_dedupFS (l : List String) (y : String) : y ∈ dedupFS l ↔ y ∈ l := by
  unfold dedupFS; rw [mem_setAddAll]; simp

theorem setAddAll_extends (l : List String) :
    ∀ s, ∃ ext, setAddAll s l = s ++ ext := by
  induction l with
  | nil => intro s; exact ⟨[], by simp [setAddAll]⟩
  | cons x xs ih =>
    intro s
    rw [setAddAll_cons]
    by_cases hx : x ∈ s
    · have hs : setAdd s x = s := by unfold setAdd; rw [if_pos hx]
      rw [hs]; exact ih s
    · have hs : setAdd s x = s ++ [x] := by unfold setAdd; rw [if_neg hx]
      rw [hs]
      rcases ih (s ++ [x]) with ⟨ext, hext⟩
      exact ⟨[x] ++ ext, by rw [hext, List.append_assoc]⟩

theorem assocLookup_nil (k : String) : assocLookup ([] : List (String × α)) k = none := rfl

theorem assocLookup_cons (e : String × α) (m : List (String × α)) (k : String) :
    assocLookup (e :: m) k = if e.1 = k then some e.2 else assocLookup m k := by
  unfold assocLookup
  by_cases h : e.1 = k
  · simp [List.find?_cons, h]
  · simp only [List.find?_cons, beq_eq_false_iff_ne.mpr h, if_neg h]

theorem assocLookup_update (m : List (String × α)) (k k' : String) (v : α) :
    assocLookup (assocUpdate m k v) k'
      = if k = k' then some v else assocLookup m k' := by
  induction m with
  | nil =>
    unfold assocUpdate
    rw [assocLookup_cons]
  | cons e rest ih =>
    unfold assocUpdate
    by_cases he : e.1 = k
    · rw [if_pos (beq_iff_eq.mpr he), assocLookup_cons]
      by_cases hk : k = k'
      · simp [hk]
      · rw [if_neg hk, if_neg hk, assocLookup_cons, if_neg (by rw [he]; exact hk)]
    · rw [if_neg (by simpa using he), assocLookup_cons, assocLookup_cons, ih]
      by_cases hk : e.1 = k'
      · rw [if_pos hk, if_neg (by rw [← hk]; exact fun h => he h.symm), if_pos hk]
      · rw [if_neg hk, if_neg hk]

theorem assocLookup_isSome_iff (m : List (String × α)) (k : String) :
    (assocLookup m k).isSome ↔ k ∈ m.map Prod.fst := by
  induction m with
  | nil => simp [assocLookup_nil]
  | cons e rest ih =>
    rw [assocLookup_cons]
    by_cases h : e.1 = k
    · simp [h]
    · simp only [if_neg h, ih, List.map_cons, List.mem_cons]
      exact ⟨Or.inr, fun hc => hc.resolve_left (fun hh => h hh.symm)⟩

theorem assocUpdate_map_fst_of_mem (m : List (String × α)) (k : String) (v : α)
    (h : k ∈ m.map Prod.fst) : (assocUpdate m k v).map Prod.fst = m.map Prod.fst := by
  induction m with
  | nil => simp at h
  | cons e rest ih =>
    unfold assocUpdate
    rcases List.mem_cons.mp h with he | he
    · rw [if_pos (beq_iff_eq.mpr he.symm)]
      simp [he]
    · by_cases hk : e.1 = k
      · rw [if_pos (beq_iff_eq.mpr hk)]; simp [hk]
      · rw [if_neg (by simpa using hk)]
        simp only [List.map_cons]
        rw [ih he]

theorem assocUpdate_of_not_mem (m : List (String × α)) (k : String) (v : α)
    (h : k ∉ m.map Prod.fst) : assocUpdate m k v = m ++ [(k, v)] := by
  induction m with
  | nil => rfl
  | cons e rest ih =>
    unfold assocUpdate
    have he : ¬ e.1 = k := fun hh => h (by simp [hh])
    rw [if_neg (by simpa using he), ih (fun hm => h (by simp [hm]))]
    simp

theorem assocLookup_of_mem_nodup (m : List (String × α)) (k : String) (v : α)
    (hn : (m.map Prod.fst).Nodup) (hm : (k, v) ∈ m) : assocLookup m k = some v := by
  induction m with
  | nil => simp at hm
  | cons e rest ih =>
    rw [assocLookup_cons]
    rcases List.mem_cons.mp hm with rfl | hmem
    · rw [if_pos rfl]
    · have hk : ¬ e.1 = k := by
        intro hh
        have : e.1 ∈ rest.map Prod.fst := by
          rw [hh]; exact List.mem_map.mpr ⟨(k, v), hmem, rfl⟩
        exact (List.nodup_cons.mp (by simpa using hn)).1 this
      rw [if_neg hk]
      exact ih (List.nodup_cons.mp (by simpa using hn)).2 hmem

/-- An association list with nodup keys `ks` and values `f` is the map of `f`
over `ks`. -/
theorem assoc_eq_map_of_lookup (m : List (String × α)) (f : String → α) :
    ∀ _ : (m.map Prod.fst).Nodup,
      (∀ k ∈ m.map Prod.fst, assocLookup m k = some (f k)) →
      m = (m.map Prod.fst).map (fun k => (k, f k)) := by
  induction m with
  | nil => intro _ _; rfl
  | cons e rest ih =>
    intro hn hl
    have he : assocLookup (e :: rest) e.1 = some (f e.1) := hl e.1 (by simp)
    rw [assocLookup_cons, if_pos rfl] at he
    have hrest : rest = (rest.map Prod.fst).map (fun k => (k, f k)) := by
      apply ih (List.nodup_cons.mp (by simpa using hn)).2
      intro k hk
      have hne : ¬ e.1 = k := by
        intro hh
        exact (List.nodup_cons.mp (by simpa using hn)).1 (hh ▸ hk)
      have := hl k (by simp [hk])
      rwa [assocLookup_cons, if_neg hne] at this
    calc e :: rest = (e.1, f e.1) :: rest := by
          rw [show (e.1, f e.1) = e from by
            cases e with
            | mk a b => simp only at he ⊢; rw [Option.some_inj.mp he]]
        _ = (e.1, f e.1) :: (rest.map Prod.fst).map (fun k => (k, f k)) := by rw [← hrest]
        _ = ((e :: rest).map Prod.fst).map (fun k => (k, f k)) := by simp

/-! ## `sortLex` really sorts: permutation and ordering lemmas -/

theorem lexLeChars_total (a : List Char) :
    ∀ b, lexLeChars a b = true ∨ lexLeChars b a = true := by
  induction a with
  | nil => intro b; exact Or.inl rfl
  | cons x xs ih =>
    intro b
    cases b with
    | nil => exact Or.inr rfl
    | cons y ys =>
      by_cases h1 : x.toNat < y.toNat
      · exact Or.inl (by
          show (if x.toNat < y.toNat then true
            else if y.toNat < x.toNat then false else lexLeChars xs ys) = true
          rw [if_pos h1])
      · by_cases h2 : y.toNat < x.toNat
        · exact Or.inr (by
            show (if y.toNat < x.toNat then true
              else if x.toNat < y.toNat then false else lexLeChars ys xs) = true
            rw [if_pos h2])
        · rcases ih ys with h | h
          · exact Or.inl (by
              show (if x.toNat < y.toNat then true
                else if y.toNat < x.toNat then false else lexLeChars xs ys) = true
              rw [if_neg h1, if_neg h2]; exact h)
          · exact Or.inr (by
              show (if y.toNat < x.toNat then true
                else if x.toNat < y.toNat then false else lexLeChars ys xs) = true
              rw [if_neg h2, if_neg h1]; exact h)

theorem lexLeChars_trans (a : List Char) :
    ∀ b c, lexLeChars a b = true → lexLeChars b c = true → lexLeChars a c = true := by
  induction a with
  | nil => intro b c _ _; rfl
  | cons x xs ih =>
    intro b c hab hbc
    cases b with
    | nil => simp [lexLeChars] at hab
    | cons y ys =>
      cases c with
      | nil => simp [lexLeChars] at hbc
      | cons z zs =>
        show (if x.toNat < z.toNat then true
          else if z.toNat < x.toNat then false else lexLeChars xs zs) = true
        have hab' : (if x.toNat < y.toNat then true
            else if y.toNat < x.toNat then false else lexLeChars xs ys) = true := hab
        have hbc' : (if y.toNat < z.toNat then true
            else if z.toNat < y.toNat then false else lexLeChars ys zs) = true := hbc
        by_cases h1 : x.toNat < y.toNat
        · by_cases h2 : y.toNat < z.toNat
          · rw [if_pos (by omega)]
          · by_cases h2' : z.toNat < y.toNat
            · rw [if_neg h2, if_pos h2'] at hbc'
              exact absurd hbc' (by simp)
            · rw [if_pos (by omega)]
        · by_cases h1' : y.toNat < x.toNat
          · rw [if_neg h1, if_pos h1'] at hab'
            exact absurd hab' (by simp)
          · rw [if_neg h1, if_neg h1'] at hab'
            by_cases h2 : y.toNat < z.toNat
            · rw [if_pos (by omega)]
            · by_cases h2' : z.toNat < y.toNat
              · rw [if_neg h2, if_pos h2'] at hbc'
                exact absurd hbc' (by simp)
              · rw [if_neg h2, if_neg h2'] at hbc'
                rw [if_neg (by omega), if_neg (by omega)]
                exact ih ys zs hab' hbc'

theorem strLe_total (a b : String) : strLe a b = true ∨ strLe b a = true :=
  lexLeChars_total a.data b.data

theorem strLe_trans (a b c : String) (h1 : strLe a b = true) (h2 : strLe b c = true) :
    strLe a c = true :=
  lexLeChars_trans a.data b.data c.data h1 h2

theorem insertSorted_perm (x : String) :
    ∀ l : List String, (insertSorted x l).Perm (x :: l) := by
  intro l
  induction l with
  | nil => exact List.Perm.refl _
  | cons y ys ih =>
    show (if strLe x y = true then x :: y :: ys else y :: insertSorted x ys).Perm (x :: y :: ys)
    by_cases h : strLe x y = true
    · rw [if_pos h]
    · rw [if_neg h]
      exact (ih.cons y).trans (List.Perm.swap x y ys)

theorem sortLex_perm (l : List String) : (sortLex l).Perm l := by
  induction l with
  | nil => exact List.Perm.refl _
  | cons x xs ih =>
    show (insertSorted x (sortLex xs)).Perm (x :: xs)
    exact (insertSorted_perm x (sortLex xs)).trans (ih.cons x)

theorem mem_sortLex (l : List String) (x : String) : x ∈ sortLex l ↔ x ∈ l :=
  (sortLex_perm l).mem_iff

theorem sortLex_nodup (l : List String) (h : l.Nodup) : (sortLex l).Nodup :=
  (sortLex_perm l).symm.nodup h

theorem insertSorted_pairwise (x : String) :
    ∀ l : List String, l.Pairwise (fun a b => strLe a b = true) →
      (insertSorted x l).Pairwise (fun a b => strLe a b = true) := by
  intro l
  induction l with
  | nil => intro _; exact List.pairwise_singleton _ _
  | cons y ys ih =>
    intro hp
    rcases List.pairwise_cons.mp hp with ⟨hy, hys⟩
    show (if strLe x y = true then x :: y :: ys else y :: insertSorted x ys).Pairwise _
    by_cases h : strLe x y = true
    · rw [if_pos h]
      refine List.pairwise_cons.mpr ⟨?_, hp⟩
      intro b hb
      rcases List.mem_cons.mp hb with rfl | hb
      · exact h
      · exact strLe_trans x y b h (hy b hb)
    · rw [if_neg h]
      refine List.pairwise_cons.mpr ⟨?_, ih hys⟩
      intro b hb
      rcases List.mem_cons.mp ((insertSorted_perm x ys).mem_iff.mp hb) with rfl | hb'
      · exact (strLe_total b y).resolve_left h
      · exact hy b hb'

/-- The output of `sortLex` is ascending in the JS string order. -/
theorem sortLex_pairwise (l : List String) :
    (sortLex l).Pairwise (fun a b => strLe a b = true) := by
  induction l with
  | nil => exact List.Pairwise.nil
  | cons x xs ih => exact insertSorted_pairwise x (sortLex xs) ih

/-! ## The references-map invariant of the `objects.forEach` loop -/

theorem pagesFold_lookup (fid : String) (ps : List String) :
    ∀ (m : List (String × List String)) (s : List String), assocLookup m fid = some s →
      assocLookup
        (ps.foldl (fun m' p =>
          assocUpdate m' fid (setAdd ((assocLookup m' fid).getD []) p)) m) fid
        = some (setAddAll s ps) := by
  induction ps with
  | nil => intro m s h; simpa [setAddAll] using h
  | cons p ps ih =>
    intro m s h
    rw [List.foldl_cons, setAddAll_cons]
    apply ih
    rw [assocLookup_update, if_pos rfl, h]
    rfl

theorem pagesFold_lookup_ne (fid : String) (ps : List String) :
    ∀ (m : List (String × List String)) (k : String), k ≠ fid →
      assocLookup
        (ps.foldl (fun m' p =>
          assocUpdate m' fid (setAdd ((assocLookup m' fid).getD []) p)) m) k
        = assocLookup m k := by
  induction ps with
  | nil => intro m k _; rfl
  | cons p ps ih =>
    intro m k hk
    rw [List.foldl_cons, ih _ _ hk, assocLookup_update, if_neg (fun h => hk h.symm)]

theorem pagesFold_map_fst (fid : String) (ps : List String) :
    ∀ (m : List (String × List String)), fid ∈ m.map Prod.fst →
      (ps.foldl (fun m' p =>
        assocUpdate m' fid (setAdd ((assocLookup m' fid).getD []) p)) m).map Prod.fst
        = m.map Prod.fst := by
  induction ps with
  | nil => intro m _; rfl
  | cons p ps ih =>
    intro m hm
    rw [List.foldl_cons, ih _ (by rw [assocUpdate_map_fst_of_mem _ _ _ hm]; exact hm),
      assocUpdate_map_fst_of_mem _ _ _ hm]

theorem addHitPages_lookup_self (m : List (String × List String)) (h : Hit) :
    assocLookup (addHitPages m h) h.fileId
      = some (setAddAll ((assocLookup m h.fileId).getD []) h.pageNumber) := by
  unfold addHitPages
  cases hm : assocLookup m h.fileId with
  | some s =>
    simp only [hm, Option.isSome_some, if_true, Option.getD_some]
    exact pagesFold_lookup _ _ _ _ hm
  | none =>
    simp only [hm, Option.isSome_none, Bool.false_eq_true, if_false, Option.getD_none]
    exact pagesFold_lookup _ _ _ _ (by rw [assocLookup_update, if_pos rfl])

theorem addHitPages_lookup_ne (m : List (String × List String)) (h : Hit) (k : String)
    (hk : k ≠ h.fileId) : assocLookup (addHitPages m h) k = assocLookup m k := by
  unfold addHitPages
  cases hm : assocLookup m h.fileId with
  | some s =>
    simp only [hm, Option.isSome_some, if_true]
    exact pagesFold_lookup_ne _ _ _ _ hk
  | none =>
    simp only [hm, Option.isSome_none, Bool.false_eq_true, if_false]
    rw [pagesFold_lookup_ne _ _ _ _ hk, assocLookup_update, if_neg (fun hh => hk hh.symm)]

theorem addHitPages_map_fst (m : List (String × List String)) (h : Hit) :
    (addHitPages m h).map Prod.fst = setAdd (m.map Prod.fst) h.fileId := by
  unfold addHitPages
  cases hm : assocLookup m h.fileId with
  | some s =>
    have hmem : h.fileId ∈ m.map Prod.fst :=
      (assocLookup_isSome_iff m h.fileId).mp (by rw [hm]; rfl)
    simp only [hm, Option.isSome_some, if_true]
    rw [pagesFold_map_fst _ _ _ hmem]
    unfold setAdd
    rw [if_pos hmem]
  | none =>
    have hmem : h.fileId ∉ m.map Prod.fst := by
      rw [← assocLookup_isSome_iff, hm]; simp
    simp only [hm, Option.isSome_none, Bool.false_eq_true, if_false]
    rw [pagesFold_map_fst _ _ _ (by rw [assocUpdate_of_not_mem _ _ _ hmem]; simp),
      assocUpdate_of_not_mem _ _ _ hmem]
    unfold setAdd
    rw [if_neg hmem]
    simp

theorem pagesOf_cons (h : Hit) (t : List Hit) (fid : String) :
    pagesOf (h :: t) fid
      = (if h.fileId == fid then h.pageNumber else []) ++ pagesOf t fid := rfl

theorem foldl_addHitPages_map_fst (objs : List Hit) :
    ∀ m, (objs.foldl addHitPages m).map Prod.fst
      = setAddAll (m.map Prod.fst) (objs.map Hit.fileId) := by
  induction objs with
  | nil => intro m; rfl
  | cons h t ih =>
    intro m
    rw [List.map_cons, setAddAll_cons, List.foldl_cons, ih, addHitPages_map_fst]

theorem foldl_addHitPages_lookup_some (objs : List Hit) :
    ∀ m fid s, assocLookup m fid = some s →
      assocLookup (objs.foldl addHitPages m) fid = some (setAddAll s (pagesOf objs fid)) := by
  induction objs with
  | nil => intro m fid s h; simpa [pagesOf, concatMap, setAddAll] using h
  | cons o t ih =>
    intro m fid s h
    rw [List.foldl_cons, pagesOf_cons]
    by_cases hf : o.fileId = fid
    · subst hf
      rw [if_pos (by simp), setAddAll_append]
      exact ih _ _ _ (by rw [addHitPages_lookup_self, h]; rfl)
    · rw [if_neg (by simp [hf]), List.nil_append]
      exact ih _ _ _ (by rw [addHitPages_lookup_ne _ _ _ (fun hh => hf hh.symm), h])

theorem foldl_addHitPages_lookup_none (objs : List Hit) :
    ∀ m fid, assocLookup m fid = none →
      assocLookup (objs.foldl addHitPages m) fid
        = if fid ∈ objs.map Hit.fileId
          then some (setAddAll [] (pagesOf objs fid)) else none := by
  induction objs with
  | nil => intro m fid h; simpa using h
  | cons o t ih =>
    intro m fid h
    rw [List.foldl_cons, List.map_cons]
    by_cases hf : o.fileId = fid
    · subst hf
      rw [if_pos (List.mem_cons_self ..), pagesOf_cons, if_pos (by simp), setAddAll_append]
      exact foldl_addHitPages_lookup_some t _ _ _ (by rw [addHitPages_lookup_self, h]; rfl)
    · have hlk : assocLookup (addHitPages m o) fid = none := by
        rw [addHitPages_lookup_ne _ _ _ (fun hh => hf hh.symm)]; exact h
      rw [ih _ _ hlk, pagesOf_cons]
      have hne : ((o.fileId == fid) : Bool) = false := by simp [hf]
      rw [hne]
      simp only [Bool.false_eq_true, if_false, List.nil_append]
      by_cases hmem : fid ∈ t.map Hit.fileId
      · rw [if_pos hmem, if_pos (List.mem_cons_of_mem _ hmem)]
      · rw [if_neg hmem, if_neg (by
          intro hc
          rcases List.mem_cons.mp hc with hc | hc
          · exact hf hc.symm
          · exact hmem hc)]

theorem foldl_processHit_referencesMap (objs : List Hit) :
    ∀ acc : RefAcc, (objs.foldl processHit acc).referencesMap
      = objs.foldl addHitPages acc.referencesMap := by
  induction objs with
  | nil => intro acc; rfl
  | cons h t ih =>
    intro acc
    rw [List.foldl_cons, List.foldl_cons, ih]
    rfl

/-- The references list produced by `formatHits`: one entry per distinct
`fileId` in first-seen order, with the sorted deduplicated page union. -/
theorem formatHits_references (objects : List Hit) :
    (formatHits objects).references
      = (dedupFS (objects.map Hit.fileId)).map
          (fun fid => Reference.mk fid (sortLex (dedupFS (pagesOf objects fid)))) := by
  show ((objects.foldl processHit ⟨[], [], 1, ""⟩).referencesMap.map
      (fun e => Reference.mk e.1 (sortLex e.2)))
    = _
  rw [foldl_processHit_referencesMap]
  have hkeys : (objects.foldl addHitPages []).map Prod.fst
      = dedupFS (objects.map Hit.fileId) := by
    rw [foldl_addHitPages_map_fst]; rfl
  have hnd : ((objects.foldl addHitPages []).map Prod.fst).Nodup := by
    rw [hkeys]; exact dedupFS_nodup _
  have hlk : ∀ k ∈ (objects.foldl addHitPages []).map Prod.fst,
      assocLookup (objects.foldl addHitPages []) k
        = some (dedupFS (pagesOf objects k)) := by
    intro k hk
    rw [hkeys] at hk
    have := foldl_addHitPages_lookup_none objects [] k rfl
    rw [if_pos (by rw [← mem_dedupFS]; exact hk)] at this
    exact this
  rw [assoc_eq_map_of_lookup _ (fun k => dedupFS (pagesOf objects k)) hnd hlk, hkeys,
    List.map_map]
  rfl

/-! ## The incremental labelling invariant of the combined answer -/

theorem mkIdxFrom_map_fst (l : List String) :
    ∀ n, (mkIdxFrom n l).map Prod.fst = l := by
  induction l with
  | nil => intro n; rfl
  | cons x xs ih => intro n; simp [mkIdxFrom, ih]

theorem assocLookup_mkIdxFrom (l : List String) :
    ∀ n k, k ∈ l → assocLookup (mkIdxFrom n l) k = some (idxOf0 l k + n) := by
  induction l with
  | nil => intro n k hk; simp at hk
  | cons x xs ih =>
    intro n k hk
    unfold mkIdxFrom idxOf0
    rw [assocLookup_cons]
    by_cases hx : x = k
    · rw [if_pos hx]
      simp [hx]
    · rw [if_neg hx, ih (n + 1) k (by rcases List.mem_cons.mp hk with h | h; exact absurd h.symm hx; exact h)]
      have : ((x == k) : Bool) = false := by simp [hx]
      rw [this]
      simp only [Bool.false_eq_true, if_false, Option.some_inj]
      omega

theorem assocLookup_mkIdxFrom_none (l : List String) :
    ∀ n k, k ∉ l → assocLookup (mkIdxFrom n l) k = none := by
  induction l with
  | nil => intro n k _; rfl
  | cons x xs ih =>
    intro n k hk
    unfold mkIdxFrom
    rw [assocLookup_cons,
      if_neg (fun h => hk (List.mem_cons.mpr (Or.inl h.symm))),
      ih _ _ (fun h => hk (List.mem_cons_of_mem _ h))]

theorem mkIdxFrom_append (l : List String) :
    ∀ n x, mkIdxFrom n (l ++ [x]) = mkIdxFrom n l ++ [(x, l.length + n)] := by
  induction l with
  | nil => intro n x; simp [mkIdxFrom]
  | cons y ys ih =>
    intro n x
    have harith : ys.length + (n + 1) = (y :: ys).length + n := by
      simp only [List.length_cons]; omega
    show (y, n) :: mkIdxFrom (n + 1) (ys ++ [x])
      = (y, n) :: mkIdxFrom (n + 1) ys ++ [(x, (y :: ys).length + n)]
    rw [ih (n + 1) x, harith, List.cons_append]

theorem idxOf0_append_self (l : List String) (x : String) (h : x ∉ l) :
    idxOf0 (l ++ [x]) x = l.length := by
  induction l with
  | nil => simp [idxOf0]
  | cons y ys ih =>
    have hy : ¬ ((y == x) = true) := by
      simp only [beq_iff_eq]
      intro hh; exact h (by simp [hh])
    show (if (y == x) = true then 0 else idxOf0 (ys ++ [x]) x + 1) = (y :: ys).length
    rw [if_neg hy, ih (fun hh => h (List.mem_cons_of_mem _ hh))]
    rfl

theorem idxOf0_append_of_mem (l : List String) :
    ∀ (ext : List String) (x : String), x ∈ l → idxOf0 (l ++ ext) x = idxOf0 l x := by
  induction l with
  | nil => intro ext x hx; simp at hx
  | cons y ys ih =>
    intro ext x hx
    show (if (y == x) = true then 0 else idxOf0 (ys ++ ext) x + 1)
      = (if (y == x) = true then 0 else idxOf0 ys x + 1)
    by_cases hy : y = x
    · rw [if_pos (by simp [hy]), if_pos (by simp [hy])]
    · rw [if_neg (by simp [hy]), if_neg (by simp [hy]),
        ih ext x (by rcases List.mem_cons.mp hx with h | h; exact absurd h.symm hy; exact h)]

theorem setAdd_of_mem (s : List String) (x : String) (h : x ∈ s) : setAdd s x = s := by
  unfold setAdd; rw [if_pos h]

theorem setAdd_of_not_mem (s : List String) (x : String) (h : x ∉ s) :
    setAdd s x = s ++ [x] := by
  unfold setAdd; rw [if_neg h]

/-- The loop writes exactly the incrementally-labelled passages after any
already-seen prefix. -/
theorem foldl_processHit_combinedAnswer (objs : List Hit) :
    ∀ (m : List (String × List String)) (seen : List String) (A : String),
      seen.Nodup →
      (objs.foldl processHit ⟨m, mkIdxFrom 1 seen, seen.length + 1, A⟩).combinedAnswer
        = A ++ answerChunks seen objs := by
  induction objs with
  | nil =>
    intro m seen A _
    show A = A ++ answerChunks seen []
    rw [show answerChunks seen [] = "" from rfl]
    exact (String.append_empty A).symm
  | cons h t ih =>
    intro m seen A hnd
    rw [List.foldl_cons]
    by_cases hmem : h.fileId ∈ seen
    · have hlk : assocLookup (mkIdxFrom 1 seen) h.fileId = some (idxOf0 seen h.fileId + 1) :=
        assocLookup_mkIdxFrom seen 1 h.fileId hmem
      have hstep : processHit ⟨m, mkIdxFrom 1 seen, seen.length + 1, A⟩ h
          = ⟨addHitPages m h, mkIdxFrom 1 seen, seen.length + 1,
             A ++ chunkStr (idxOf0 seen h.fileId + 1) h⟩ := by
        unfold processHit
        simp only [hlk, Option.isSome_some, if_true, Option.getD_some]
      rw [hstep, ih _ _ _ hnd]
      show A ++ chunkStr (idxOf0 seen h.fileId + 1) h ++ answerChunks seen t
        = A ++ answerChunks seen (h :: t)
      rw [show answerChunks seen (h :: t)
          = chunkStr (idxOf0 (setAdd seen h.fileId) h.fileId + 1) h
              ++ answerChunks (setAdd seen h.fileId) t from rfl,
        setAdd_of_mem _ _ hmem, String.append_assoc]
    · have hlk : assocLookup (mkIdxFrom 1 seen) h.fileId = none :=
        assocLookup_mkIdxFrom_none seen 1 h.fileId hmem
      have hupd : assocUpdate (mkIdxFrom 1 seen) h.fileId (seen.length + 1)
          = mkIdxFrom 1 (seen ++ [h.fileId]) := by
        rw [assocUpdate_of_not_mem _ _ _ (by rw [mkIdxFrom_map_fst]; exact hmem),
          mkIdxFrom_append]
      have hlk2 : assocLookup (mkIdxFrom 1 (seen ++ [h.fileId])) h.fileId
          = some (seen.length + 1) := by
        rw [assocLookup_mkIdxFrom _ 1 _ (by simp), idxOf0_append_self _ _ hmem]
      have hstep : processHit ⟨m, mkIdxFrom 1 seen, seen.length + 1, A⟩ h
          = ⟨addHitPages m h, mkIdxFrom 1 (seen ++ [h.fileId]), (seen ++ [h.fileId]).length + 1,
             A ++ chunkStr (seen.length + 1) h⟩ := by
        unfold processHit
        simp only [hlk, Option.isSome_none, Bool.false_eq_true, if_false, hupd, hlk2,
          Option.getD_some, List.length_append, List.length_cons, List.length_nil]
      rw [hstep, ih _ _ _ (by
        rw [List.nodup_append]
        exact ⟨hnd, List.nodup_singleton _,
          fun a ha hb => hmem ((List.mem_singleton.mp hb) ▸ ha)⟩)]
      show A ++ chunkStr (seen.length + 1) h ++ answerChunks (seen ++ [h.fileId]) t
        = A ++ answerChunks seen (h :: t)
      rw [show answerChunks seen (h :: t)
          = chunkStr (idxOf0 (setAdd seen h.fileId) h.fileId + 1) h
              ++ answerChunks (setAdd seen h.fileId) t from rfl,
        setAdd_of_not_mem _ _ hmem, idxOf0_append_self _ _ hmem, String.append_assoc]

/-- Incremental labelling agrees with labels taken from the final first-seen
list. -/
theorem answerChunks_eq_joinChunks (objs : List Hit) :
    ∀ seen, answerChunks seen objs = joinChunks (setAddAll seen (objs.map Hit.fileId)) objs := by
  induction objs with
  | nil => intro seen; rfl
  | cons h t ih =>
    intro seen
    show chunkStr (idxOf0 (setAdd seen h.fileId) h.fileId + 1) h
        ++ answerChunks (setAdd seen h.fileId) t
      = joinChunks (setAddAll seen ((h :: t).map Hit.fileId)) (h :: t)
    rw [List.map_cons, setAddAll_cons]
    rw [show joinChunks (setAddAll (setAdd seen h.fileId) (t.map Hit.fileId)) (h :: t)
        = chunkStr (idxOf0 (setAddAll (setAdd seen h.fileId) (t.map Hit.fileId)) h.fileId + 1) h
            ++ joinChunks (setAddAll (setAdd seen h.fileId) (t.map Hit.fileId)) t from rfl]
    rcases setAddAll_extends (t.map Hit.fileId) (setAdd seen h.fileId) with ⟨ext, hext⟩
    rw [hext, idxOf0_append_of_mem _ _ _ (by rw [mem_setAdd]; exact Or.inr rfl), ← hext,
      ih (setAdd seen h.fileId)]

/-- The combined answer of `formatHits` equals the specification formula:
trim of the per-hit numbered passages with first-seen labels. -/
theorem formatHits_answer (objects : List Hit) :
    (formatHits objects).answer = jsTrim (specAnswer objects) := by
  show jsTrim (objects.foldl processHit ⟨[], [], 1, ""⟩).combinedAnswer = _
  have h0 : (objects.foldl processHit ⟨[], [], 1, ""⟩).combinedAnswer
      = "" ++ answerChunks [] objects :=
    foldl_processHit_combinedAnswer objects [] [] "" List.nodup_nil
  rw [h0, answerChunks_eq_joinChunks]
  rfl

/-! ## `queryRAG` path lemmas -/

/-- On a successful primary search with at least one hit, `queryRAG` returns
exactly the formatted hits. -/
theorem queryRAG_success (o : RagOracles) (input : RAGAgentInput) (objects : List Hit)
    (ht : jsFalsyStr input.tenant = false)
    (he : o.embed input.query = Except.ok ())
    (hs : o.primarySearch (input.tenant.getD "") (input.topK.getD 3)
      = Except.ok (some objects))
    (hne : objects ≠ []) :
    queryRAG o input = formatHits objects := by
  unfold queryRAG
  simp only [ht, Bool.false_eq_true, if_false, he, hs, Option.getD_some]
  rw [if_neg (by simpa [List.isEmpty_iff] using hne)]

/-- General form of the math fallback: when the arithmetic pattern matches
and no chart/RAG/document/explain keyword does, the fallback decision is
`needsChart = false`, `needsRAG = false` and the templated answer string. -/
theorem fallbackRoute_math (q m0 : String) (caps : Caps)
    (hm : reMatch mathPattern q = some (m0, caps))
    (hc : reTest chartKeywords q = false)
    (hr1 : reTest ragKeywords q = false)
    (hr2 : reTest documentKeywords q = false)
    (hr3 : reTest explainPattern q = false) :
    fallbackRoute q = ⟨false, false,
      "The answer is " ++ jsNumToString (jsApplyOp (firstOpChar m0)
        (parseFloatDigits (capGet caps 1)) (parseFloatDigits (capGet caps 2))) ++ "."⟩ := by
  have ht : reTest mathPattern q = true := by unfold reTest; rw [hm]; rfl
  simp only [fallbackRoute, hm, hc, hr1, hr2, hr3, ht]
  simp

/-- C6: under the fallback routing path, division by zero is not guarded:
a matched `a / 0` with `a` positive and no chart/RAG keywords yields the
IEEE-754 quotient, so the direct answer is `"The answer is Infinity."`
(and `"The answer is NaN."` for `0 / 0`), not an error. -/
theorem claim_C6_division_by_zero_unguarded (q m0 : String) (caps : Caps)
    (hm : reMatch mathPattern q = some (m0, caps))
    (hop : firstOpChar m0 = some '/')
    (hz : (parseFloatDigits (capGet caps 2)).num = 0)
    (hc : reTest chartKeywords q = false)
    (hr1 : reTest ragKeywords q = false)
    (hr2 : reTest documentKeywords q = false)
    (hr3 : reTest explainPattern q = false) :
    (0 < (parseFloatDigits (capGet caps 1)).num →
      (fallbackRoute q).directAnswer = "The answer is Infinity.")
    ∧ ((parseFloatDigits (capGet caps 1)).num = 0 →
      (fallbackRoute q).directAnswer = "The answer is NaN.") := by
  rw [fallbackRoute_math q m0 caps hm hc hr1 hr2 hr3, hop]
  constructor
  · intro hpos
    have hne : (parseFloatDigits (capGet caps 1)).num ≠ 0 := by omega
    show "The answer is " ++ jsNumToString (jsApplyOp (some '/') _ _) ++ "." = _
    rw [show jsApplyOp (some '/') (parseFloatDigits (capGet caps 1))
          (parseFloatDigits (capGet caps 2)) = JSNum.inf true from by
      simp [jsApplyOp, hz, hne, hpos]]
    rfl
  · intro hzero
    show "The answer is " ++ jsNumToString (jsApplyOp (some '/') _ _) ++ "." = _
    rw [show jsApplyOp (some '/') (parseFloatDigits (capGet caps 1))
          (parseFloatDigits (capGet caps 2)) = JSNum.nan from by
        simp [jsApplyOp, hz, hzero]]
    rfl

/-- C6 witness: `"5 / 0"` gives Infinity and `"0 / 0"` gives NaN. -/
theorem claim_C6_division_by_zero_unguarded_witness :
    (fallbackRoute "5 / 0").directAnswer = "The answer is Infinity."
    ∧ (fallbackRoute "0 / 0").directAnswer = "The answer is NaN." :=
  ⟨(claim_C6_division_by_zero_unguarded "5 / 0" "5 / 0" [(1, "5"), (2, "0")]
      (by decide) (by decide) (by decide) (by decide) (by decide) (by decide)
      (by decide)).1 (by decide),
   (claim_C6_division_by_zero_unguarded "0 / 0" "0 / 0" [(1, "0"), (2, "0")]
      (by decide) (by decide) (by decide) (by decide) (by decide) (by decide)
      (by decide)).2 (by decide)⟩

/-- C3: for every non-empty hit list returned by the search, the reference
list produced by `queryRAG` has exactly one entry per distinct `fileId`,
in first-seen order of `fileId` across the hits, and each entry's pages are
the deduplicated union of that file's page labels, sorted lexicographically. -/
theorem claim_C3_reference_aggregation (o : RagOracles) (input : RAGAgentInput)
    (objects : List Hit)
    (ht : jsFalsyStr input.tenant = false)
    (he : o.embed input.query = Except.ok ())
    (hs : o.primarySearch (input.tenant.getD "") (input.topK.getD 3)
      = Except.ok (some objects))
    (hne : objects ≠ []) :
    (queryRAG o input).references
      = (dedupFS (objects.map Hit.fileId)).map
          (fun fid => Reference.mk fid (sortLex (dedupFS (pagesOf objects fid))))
    ∧ (dedupFS (objects.map Hit.fileId)).Nodup := by
  rw [queryRAG_success o input objects ht he hs hne, formatHits_references]
  exact ⟨rfl, dedupFS_nodup _⟩

/-- C3 witness: three hits over two files with a duplicated page label. -/
theorem claim_C3_reference_aggregation_witness :
    (queryRAG demoRagOracles demoRagInput).references
      = (dedupFS (demoHits.map Hit.fileId)).map
          (fun fid => Reference.mk fid (sortLex (dedupFS (pagesOf demoHits fid))))
    ∧ (dedupFS (demoHits.map Hit.fileId)).Nodup
    ∧ (queryRAG demoRagOracles demoRagInput).references
      = [⟨"tech_doc_001", ["2", "3", "4"]⟩, ⟨"financial_report_q3", ["7"]⟩] :=
  ⟨(claim_C3_reference_aggregation demoRagOracles demoRagInput demoHits
      rfl rfl rfl (by decide)).1,
   (claim_C3_reference_aggregation demoRagOracles demoRagInput demoHits
      rfl rfl rfl (by decide)).2,
   by decide⟩

/-- C4: for every non-empty hit list, the combined answer of `queryRAG` is
built by labelling distinct `fileId`s 1, 2, … in first-seen order and
appending, per hit in retrieval order,
`"{label}- Page {comma-joined pages}: {answer}"` plus a blank line, with the
trailing whitespace trimmed. -/
theorem claim_C4_combined_answer_format (o : RagOracles) (input : RAGAgentInput)
    (objects : List Hit)
    (ht : jsFalsyStr input.tenant = false)
    (he : o.embed input.query = Except.ok ())
    (hs : o.primarySearch (input.tenant.getD "") (input.topK.getD 3)
      = Except.ok (some objects))
    (hne : objects ≠ []) :
    (queryRAG o input).answer = jsTrim (specAnswer objects) := by
  rw [queryRAG_success o input objects ht he hs hne, formatHits_answer]

/-- C4 witness: the three demo hits produce the expected numbered passages. -/
theorem claim_C4_combined_answer_format_witness :
    (queryRAG demoRagOracles demoRagInput).answer = jsTrim (specAnswer demoHits)
    ∧ (queryRAG demoRagOracles demoRagInput).answer
      = "1- Page 3, 4: Answer A\n\n2- Page 7: Answer B\n\n1- Page 4, 2: Answer C" :=
  ⟨claim_C4_combined_answer_format demoRagOracles demoRagInput demoHits
      rfl rfl rfl (by decide),
   by decide⟩

/-- C7: `queryRAG` never propagates a failure to its caller: a missing or
empty tenant, a failing embedding call, or both searches failing all yield
the fixed error output with empty references and raw data (and `queryRAG`
is a total function of its oracles by construction). -/
theorem claim_C7_queryRAG_never_throws (o : RagOracles) (input : RAGAgentInput)
    (h : jsFalsyStr input.tenant = true
      ∨ o.embed input.query = Except.error ()
      ∨ (o.primarySearch (input.tenant.getD "") (input.topK.getD 3) = Except.error ()
         ∧ o.fallbackFetch (input.tenant.getD "") (input.topK.getD 3)
            = Except.error ())) :
    queryRAG o input
      = ⟨"An error occurred while retrieving information.", [], []⟩ := by
  unfold queryRAG
  cases ht : jsFalsyStr input.tenant with
  | true => simp
  | false =>
    rcases h with h | h | ⟨h1, h2⟩
    · rw [ht] at h
      exact absurd h (by simp)
    · simp [h]
    · cases he : o.embed input.query with
      | error e => cases e; simp
      | ok u => cases u; simp [h1, h2]

/-- C7 witness: a missing tenant, a failing embedding, and a doubly-failing
search each produce the fixed error output. -/
theorem claim_C7_queryRAG_never_throws_witness :
    queryRAG demoRagOracles ⟨"What are the system requirements for deployment?", none, none⟩
      = ⟨"An error occurred while retrieving information.", [], []⟩
    ∧ queryRAG embedFailRagOracles demoRagInput
      = ⟨"An error occurred while retrieving information.", [], []⟩
    ∧ queryRAG searchFailRagOracles demoRagInput
      = ⟨"An error occurred while retrieving information.", [], []⟩ :=
  ⟨claim_C7_queryRAG_never_throws demoRagOracles _ (Or.inl rfl),
   claim_C7_queryRAG_never_throws embedFailRagOracles demoRagInput (Or.inr (Or.inl rfl)),
   claim_C7_queryRAG_never_throws searchFailRagOracles demoRagInput
     (Or.inr (Or.inr ⟨rfl, rfl⟩))⟩

/-- C8: zero hits — whether from the primary search or from the fallback
listing — produce exactly the fixed no-information answer together with
empty references and empty raw data. -/
theorem claim_C8_zero_hits_answer (o : RagOracles) (input : RAGAgentInput)
    (r r' : Option (List Hit))
    (ht : jsFalsyStr input.tenant = false)
    (he : o.embed input.query = Except.ok ())
    (h : (o.primarySearch (input.tenant.getD "") (input.topK.getD 3) = Except.ok r
            ∧ r.getD [] = [])
      ∨ (o.primarySearch (input.tenant.getD "") (input.topK.getD 3) = Except.error ()
            ∧ o.fallbackFetch (input.tenant.getD "") (input.topK.getD 3) = Except.ok r'
            ∧ r'.getD [] = [])) :
    queryRAG o input
      = ⟨"I couldn\x27t find any relevant information in the documents.", [], []⟩ := by
  unfold queryRAG
  rcases h with ⟨h1, h2⟩ | ⟨h1, h2, h3⟩
  · simp [ht, he, h1, h2]
  · simp [ht, he, h1, h2, h3]

/-- C8 witness: an empty primary result and an empty fallback listing both
give the fixed answer. -/
theorem claim_C8_zero_hits_answer_witness :
    queryRAG emptyRagOracles demoRagInput
      = ⟨"I couldn\x27t find any relevant information in the documents.", [], []⟩
    ∧ queryRAG fallbackEmptyRagOracles demoRagInput
      = ⟨"I couldn\x27t find any relevant information in the documents.", [], []⟩ :=
  ⟨claim_C8_zero_hits_answer emptyRagOracles demoRagInput (some []) none
      rfl rfl (Or.inl ⟨rfl, rfl⟩),
   claim_C8_zero_hits_answer fallbackEmptyRagOracles demoRagInput none none
      rfl rfl (Or.inr ⟨rfl, rfl, rfl⟩)⟩

/-! ## Orchestrator lemmas and claims -/

/-- The delegator always writes `finalAnswer`, with the value `routedAnswer`
describes. -/
theorem delegating_finalAnswer (resp : Option LLMDecision) (s : GraphState) :
    (applyUpdate s (delegatingNode resp s)).finalAnswer
      = routedAnswer resp s.userQuery := by
  cases resp <;> rfl

/-- The delegator touches only the routing channels. -/
theorem delegating_frame (resp : Option LLMDecision) (s : GraphState) :
    (applyUpdate s (delegatingNode resp s)).chartResult = s.chartResult
    ∧ (applyUpdate s (delegatingNode resp s)).ragResult = s.ragResult
    ∧ (applyUpdate s (delegatingNode resp s)).allData = s.allData
    ∧ (applyUpdate s (delegatingNode resp s)).userQuery = s.userQuery
    ∧ (applyUpdate s (delegatingNode resp s)).tenant = s.tenant := by
  cases resp <;> simp [applyUpdate, delegatingNode, emptyUpdate]

/-- A truthy `finalAnswer` after routing sends the run straight to `END`. -/
theorem runGraph_direct (o : Oracles) (s0 : GraphState)
    (h : routedAnswer o.routing s0.userQuery ≠ "") :
    runGraph o s0 = Except.ok (applyUpdate s0 (delegatingNode o.routing s0)) := by
  simp only [runGraph]
  rw [if_pos (by rw [delegating_finalAnswer]; exact h)]

/-- C2: whenever the router produces a non-empty direct answer, the run ends
at the state the delegator wrote: no worker and no synthesizer runs (the
result does not depend on the worker or synthesis oracles at all), and
`chartResult`, `ragResult` and `allData` are exactly the initial ones. -/
theorem claim_C2_direct_answer_short_circuit (o o' : Oracles) (s0 : GraphState)
    (hr : o'.routing = o.routing)
    (h : routedAnswer o.routing s0.userQuery ≠ "") :
    runGraph o s0 = Except.ok (applyUpdate s0 (delegatingNode o.routing s0))
    ∧ (applyUpdate s0 (delegatingNode o.routing s0)).chartResult = s0.chartResult
    ∧ (applyUpdate s0 (delegatingNode o.routing s0)).ragResult = s0.ragResult
    ∧ (applyUpdate s0 (delegatingNode o.routing s0)).allData = s0.allData
    ∧ runGraph o' s0 = runGraph o s0 := by
  have h2 := runGraph_direct o s0 h
  have h3 := runGraph_direct o' s0 (by rw [hr]; exact h)
  exact ⟨h2, (delegating_frame o.routing s0).1, (delegating_frame o.routing s0).2.1,
    (delegating_frame o.routing s0).2.2.1, by rw [h3, h2, hr]⟩

/-- C2 witness: a direct answer (`"Paris"`) with both worker flags set; the
run short-circuits identically whether the workers are healthy
(`demoOracleA`) or all failing (`demoOracleB`). -/
theorem claim_C2_direct_answer_short_circuit_witness :
    runGraph demoOracleA capitalState
      = Except.ok (applyUpdate capitalState (delegatingNode demoOracleA.routing capitalState))
    ∧ (applyUpdate capitalState (delegatingNode demoOracleA.routing capitalState)).chartResult
      = capitalState.chartResult
    ∧ (applyUpdate capitalState (delegatingNode demoOracleA.routing capitalState)).ragResult
      = capitalState.ragResult
    ∧ (applyUpdate capitalState (delegatingNode demoOracleA.routing capitalState)).allData
      = capitalState.allData
    ∧ runGraph demoOracleB capitalState = runGraph demoOracleA capitalState :=
  claim_C2_direct_answer_short_circuit demoOracleA demoOracleB capitalState rfl (by decide)

/-- C1 (code bug): contrary to the claim — and to the README's "each node is
wrapped in try-catch" — `chartToolNode` has no catch, so when the chart
generator call rejects in a both-workers run the whole invocation aborts
with the error instead of recording an error-flavored chart result and
completing. -/
theorem claim_C1_chart_failure_aborts_run (o : Oracles) (s0 : GraphState)
    (hA : (applyUpdate s0 (delegatingNode o.routing s0)).finalAnswer = "")
    (hC : (applyUpdate s0 (delegatingNode o.routing s0)).needsChart = true)
    (hR : (applyUpdate s0 (delegatingNode o.routing s0)).needsRAG = true)
    (hG : o.chartGen
        (chartTypeOf (applyUpdate s0 (delegatingNode o.routing s0)).userQuery)
        (applyUpdate s0 (delegatingNode o.routing s0)).userQuery = Except.error ()) :
    runGraph o s0 = Except.error () := by
  simp only [runGraph]
  rw [if_neg (by rw [hA]; simp)]
  rw [if_pos (by rw [hC, hR]; rfl)]
  rw [show chartToolNode o.chartGen (applyUpdate s0 (delegatingNode o.routing s0))
      = Except.error () from by
    unfold chartToolNode
    rw [hC]
    simp only [Bool.not_true, Bool.false_eq_true, if_false]
    rw [hG]]

/-- C1 witness: the fallback routes `"plot and explain it"` to both workers;
with a rejecting chart generator the run aborts with the error. -/
theorem claim_C1_chart_failure_aborts_run_witness :
    runGraph chartFailOracles bothFlagsState = Except.error () :=
  claim_C1_chart_failure_aborts_run chartFailOracles bothFlagsState
    (by decide) (by decide) (by decide) rfl

/-- C9: with `needsRAG` set and the tenant absent or empty, the RAG node
substitutes the default tenant `company_a` (`state.tenant || "company_a"`)
and the retrieval runs scoped to that tenant, returning its records rather
than failing on the missing tenant. -/
theorem claim_C9_default_tenant_substitution (o : RagOracles) (s : GraphState)
    (hits : List Hit)
    (hR : s.needsRAG = true)
    (hT : s.tenant = none ∨ s.tenant = some "")
    (he : o.embed s.userQuery = Except.ok ())
    (hs : o.primarySearch "company_a" 3 = Except.ok (some hits))
    (hne : hits ≠ []) :
    ragAgentNode (queryRagFn o) s
      = { emptyUpdate with
            ragResult := some (queryRAG o ⟨s.userQuery, some "company_a", none⟩)
            allData := [Payload.refs
              (queryRAG o ⟨s.userQuery, some "company_a", none⟩).references] }
    ∧ queryRAG o ⟨s.userQuery, some "company_a", none⟩ = formatHits hits := by
  constructor
  · unfold ragAgentNode
    rcases hT with hT | hT <;> rw [hR, hT] <;> rfl
  · exact queryRAG_success o ⟨s.userQuery, some "company_a", none⟩ hits rfl he hs hne

/-- C9 witness: a state with no tenant retrieves `company_a`'s records. -/
theorem claim_C9_default_tenant_substitution_witness :
    ragAgentNode (queryRagFn demoRagOracles) noTenantState
      = { emptyUpdate with
            ragResult := some (queryRAG demoRagOracles
              ⟨noTenantState.userQuery, some "company_a", none⟩)
            allData := [Payload.refs (queryRAG demoRagOracles
              ⟨noTenantState.userQuery, some "company_a", none⟩).references] }
    ∧ queryRAG demoRagOracles ⟨noTenantState.userQuery, some "company_a", none⟩
      = formatHits demoHits :=
  claim_C9_default_tenant_substitution demoRagOracles noTenantState demoHits
    rfl (Or.inl rfl) rfl rfl (by decide)

/-- C10: each worker node is a no-op when its flag is unset — it returns the
empty update, and merging the empty update changes nothing. -/
theorem claim_C10_worker_noop_when_flag_unset
    (gen : ChartType → String → Except Unit ChartOutput)
    (ragFn : RAGAgentInput → Except Unit RAGAgentOutput)
    (s1 s2 : GraphState)
    (h1 : s1.needsChart = false) (h2 : s2.needsRAG = false) :
    chartToolNode gen s1 = Except.ok emptyUpdate
    ∧ applyUpdate s1 emptyUpdate = s1
    ∧ ragAgentNode ragFn s2 = emptyUpdate
    ∧ applyUpdate s2 emptyUpdate = s2 := by
  refine ⟨by simp [chartToolNode, h1], ?_, by simp [ragAgentNode, h2], ?_⟩
  · cases s1; simp [applyUpdate, emptyUpdate]
  · cases s2; simp [applyUpdate, emptyUpdate]

/-- C10 witness: both nodes leave an idle state untouched. -/
theorem claim_C10_worker_noop_when_flag_unset_witness :
    chartToolNode demoChartGen idleState = Except.ok emptyUpdate
    ∧ applyUpdate idleState emptyUpdate = idleState
    ∧ ragAgentNode (queryRagFn demoRagOracles) idleState = emptyUpdate
    ∧ applyUpdate idleState emptyUpdate = idleState :=
  claim_C10_worker_noop_when_flag_unset demoChartGen (queryRagFn demoRagOracles)
    idleState idleState rfl rfl

end MA
